import Mathlib

/-!
Shallow embedding of the two pattern demos of this repository that the
specification's checkable claims are about:

- src/Observer/observer.py : classes Sujeito, SujeitoConcreto,
  Observador, ObservadorConcretoA, ObservadorConcretoB.
- src/Composite/composite.py : classes Component, Leaf, Composite.

Python-semantics conventions used throughout:

- CPython's list.remove(v) scans from index 0, removes the first element
  equal to v, and raises ValueError without mutating the list when no
  element matches.  It is embedded as pyListRemove below.
- Comparing None with an integer via an order operator raises TypeError
  in Python 3; equality comparison with None simply returns False.
- print statements are irrelevant to every claim and are omitted.
-/

namespace PyDP

/-- The two Python exceptions that can be raised by the code under
specification: ValueError from list.remove, and TypeError from ordering
None against an int. -/
inductive PyError where
  | valueError
  | typeError
deriving DecidableEq, Repr

/-- Embedding of CPython list.remove: delete the first element equal to
the argument, or raise ValueError (without mutating) when absent. -/
def pyListRemove {α : Type} [DecidableEq α] : List α → α → Except PyError (List α)
  | [], _ => .error .valueError
  | x :: xs, v => if x = v then .ok xs else (pyListRemove xs v).map (fun ys => x :: ys)

/-!
Observer pattern (src/Observer/observer.py).

Concrete observers in the source are ObservadorConcretoA and
ObservadorConcretoB.  A third kind models the hypothetical observer that
claim C7 quantifies over: one whose atualizar callback calls
sujeito.remover on the subscriber with a given identity.  Python objects
without a custom equality compare by identity, so observers are
identified by a numeric id and list.remove matches on that identity.
-/

/-- Behaviour of an observer's atualizar method. -/
inductive ObsKind where
  | a
  | b
  | remover (victimId : Nat)
deriving DecidableEq, Repr

/-- An observer reference: its Python identity plus its concrete class. -/
structure Obs where
  id : Nat
  kind : ObsKind
deriving DecidableEq, Repr

/-- Embedding of list.remove keyed on Python object identity: delete the
first subscriber with the given id, or raise ValueError. -/
def removeById : List Obs → Nat → Except PyError (List Obs)
  | [], _ => .error .valueError
  | x :: xs, v => if x.id = v then .ok xs else (removeById xs v).map (fun ys => x :: ys)

/-- SujeitoConcreto._estado on a fresh instance: the class attribute is
initialised to None (despite the int annotation), so the state is an
Option Int that starts as none. -/
def estadoInicial : Option Int := none

/-- Embedding of atualizar(self, sujeito) for each observer kind, given
the subject's current state and its live subscriber list.

ObservadorConcretoA runs `sujeito._estado < 3`: ordering None against an
int raises TypeError.  ObservadorConcretoB runs
`sujeito._estado == 0 or sujeito._estado >= 2`: with None the equality is
False and the ordering raises TypeError.  The remover kind calls
sujeito.remover(victim), i.e. list.remove on the live subscriber list,
which raises ValueError when the victim is not subscribed. -/
def atualizar (o : Obs) (estado : Option Int) (lst : List Obs) : Except PyError (List Obs) :=
  match o.kind with
  | .a => match estado with
    | none => .error .typeError
    | some _ => .ok lst
  | .b => match estado with
    | none => .error .typeError
    | some _ => .ok lst
  | .remover v => removeById lst v

/-- Result of one notificar() call: the visit trace (observer id paired
with the state that observer read from the subject), the subscriber list
after the pass, and the exception that aborted the pass, if any. -/
structure NotifyResult where
  visitas : List (Nat × Option Int)
  restantes : List Obs
  erro : Option PyError
deriving DecidableEq, Repr

/-- Embedding of the loop `for observador in self._observadores:
observador.atualizar(self)`.  A CPython list iterator keeps an index i
and yields lst[i] from the live list while i < len(lst); the body may
shrink the list.  The index grows by one per iteration and the list
never grows, so the loop performs at most the list's initial length
iterations; the fuel argument carries that bound. -/
def notificarAux (estado : Option Int) : Nat → List Obs → Nat → NotifyResult
  | 0, lst, _ => ⟨[], lst, none⟩
  | fuel+1, lst, i =>
    if h : i < lst.length then
      let o := lst.get ⟨i, h⟩
      match atualizar o estado lst with
      | .error e => ⟨[(o.id, estado)], lst, some e⟩
      | .ok lst' =>
        let r := notificarAux estado fuel lst' (i+1)
        ⟨(o.id, estado) :: r.visitas, r.restantes, r.erro⟩
    else ⟨[], lst, none⟩

/-- SujeitoConcreto.notificar, given the subscriber list and state. -/
def notificar (lst : List Obs) (estado : Option Int) : NotifyResult :=
  notificarAux estado lst.length lst 0

/-- SujeitoConcreto.adicionar: append to the subscriber list. -/
def adicionar (lst : List Obs) (o : Obs) : List Obs :=
  lst ++ [o]

/-- SujeitoConcreto.remover: list.remove on the subscriber list.  The
ValueError propagates to the caller; since list.remove raises before any
mutation, the subscriber list is returned unchanged in that case. -/
def remover (lst : List Obs) (o : Obs) : List Obs × Option PyError :=
  match pyListRemove lst o with
  | .error e => (lst, some e)
  | .ok l' => (l', none)

/-!
The subscriber list `_observadores: List[Observador] = []` is a CLASS
attribute of SujeitoConcreto, and adicionar, remover and notificar only
ever mutate it in place (append, remove, iterate), so every instance of
SujeitoConcreto reads and writes the one list object stored on the
class.  The state `_estado` on the other hand is rebound per instance by
`self._estado = randrange(0, 10)`.  A world with two SujeitoConcreto
instances therefore has one shared subscriber list and two states.
-/

/-- Two SujeitoConcreto instances as they exist at runtime: one
class-level subscriber list shared by both, one _estado per instance. -/
structure MundoObserver where
  observadores : List Obs
  estado1 : Option Int
  estado2 : Option Int
deriving DecidableEq, Repr

/-- Two freshly constructed SujeitoConcreto instances. -/
def mundoFresh : MundoObserver :=
  ⟨[], estadoInicial, estadoInicial⟩

/-- s1.adicionar(o): appends to the class-level list. -/
def adicionarS1 (w : MundoObserver) (o : Obs) : MundoObserver :=
  { w with observadores := adicionar w.observadores o }

/-- s2.notificar(): iterates the class-level list, passing s2, whose
state the observers read. -/
def notificarS2 (w : MundoObserver) : NotifyResult :=
  notificar w.observadores w.estado2

/-!
Composite pattern (src/Composite/composite.py), first view: tree-shaped
configurations.  A Component is a Leaf or a Composite owning an ordered
list of children; this is the shape of every configuration built by the
demo driver, and the view against which operation() is specified.
-/

/-- A Component in a tree-shaped configuration: the Leaf class, or the
Composite class with its _children list in insertion order. -/
inductive PyComponent where
  | leaf : PyComponent
  | comp : List PyComponent → PyComponent

mutual

/-- Embedding of operation(): Leaf.operation returns the constant
"Folha"; Composite.operation collects each child's operation() result in
list order and returns them joined by "+" inside "Galho(...)". -/
def operation : PyComponent → String
  | .leaf => "Folha"
  | .comp cs => "Galho(" ++ String.intercalate "+" (operationList cs) ++ ")"

/-- The results list built by the for-loop in Composite.operation. -/
def operationList : List PyComponent → List String
  | [] => []
  | t :: ts => operation t :: operationList ts

end

/-- Embedding of add(component) on the tree view: Composite.add appends
to _children (and sets the child's parent), while a Leaf inherits
Component.add, whose body is pass. -/
def addT : PyComponent → PyComponent → PyComponent
  | .leaf, _ => .leaf
  | .comp cs, c => .comp (cs ++ [c])

/-!
Composite pattern, second view: the object heap.  Nodes are identified
by numeric Python identity; each identity has a class (is_composite),
a _children list of identities, and a _parent reference.  This view can
represent the aliased and cyclic configurations that add is able to
build, which the tree view cannot.
-/

/-- The object heap of a composite demo run: per node identity, its
class (Composite or Leaf), its _children list and its _parent field. -/
structure CHeap where
  isComp : Nat → Bool
  children : Nat → List Nat
  parent : Nat → Option Nat

/-- Embedding of add on the heap: Composite.add appends the argument to
the receiver's _children and sets the argument's _parent to the
receiver; Leaf inherits the pass body of Component.add. -/
def pyAdd (h : CHeap) (p c : Nat) : CHeap :=
  if h.isComp p then
    { h with
      children := fun n => if n = p then h.children p ++ [c] else h.children n,
      parent := fun n => if n = c then some p else h.parent n }
  else h

/-- Embedding of remove on the heap: Composite.remove runs
self._children.remove(component) and then clears the argument's
_parent.  When list.remove raises ValueError it does so before any
mutation and the second statement never runs, so the heap is returned
unchanged together with the error.  Leaf inherits the pass body of
Component.remove. -/
def pyRemove (h : CHeap) (p c : Nat) : CHeap × Option PyError :=
  if h.isComp p then
    match pyListRemove (h.children p) c with
    | .error e => (h, some e)
    | .ok ch' =>
      ({ h with
         children := fun n => if n = p then ch' else h.children n,
         parent := fun n => if n = c then none else h.parent n }, none)
  else (h, none)

/-- Embedding of operation() on the heap, with fuel bounding the
recursion depth: a run of the Python recursion that does not terminate
within any fuel has no result. -/
def pyOperation (h : CHeap) : Nat → Nat → Option String
  | 0, _ => none
  | fuel+1, n =>
    if h.isComp n then
      match (h.children n).mapM (pyOperation h fuel) with
      | none => none
      | some rs => some ("Galho(" ++ String.intercalate "+" rs ++ ")")
    else some "Folha"

/-- The child edge relation of a heap: an edge from a node to each entry
of its _children list. -/
def edgeC (h : CHeap) (x y : Nat) : Prop :=
  y ∈ h.children x

/-- Acyclicity of the parent/child relation: no node reaches itself by a
nonempty chain of child edges. -/
def AcyclicC (h : CHeap) : Prop :=
  ∀ x, ¬ Relation.TransGen (edgeC h) x x

/-! Helper lemmas about the list.remove embedding. -/

theorem pyListRemove_of_not_mem {α : Type} [DecidableEq α] {lst : List α} {v : α}
    (h : v ∉ lst) : pyListRemove lst v = .error .valueError := by
  induction lst with
  | nil => rfl
  | cons x xs ih =>
    simp only [List.mem_cons, not_or] at h
    have hxv : ¬ x = v := fun e => h.1 e.symm
    simp [pyListRemove, hxv, ih h.2, Except.map]

theorem pyListRemove_append_cons {α : Type} [DecidableEq α] (l1 l2 : List α) (v : α)
    (h : v ∉ l1) : pyListRemove (l1 ++ v :: l2) v = .ok (l1 ++ l2) := by
  induction l1 with
  | nil => simp [pyListRemove]
  | cons x xs ih =>
    simp only [List.mem_cons, not_or] at h
    have hxv : ¬ x = v := fun e => h.1 e.symm
    simp [pyListRemove, hxv, ih h.2, Except.map]

theorem mem_split_first {α : Type} [DecidableEq α] {lst : List α} {v : α}
    (h : v ∈ lst) : ∃ l1 l2, lst = l1 ++ v :: l2 ∧ v ∉ l1 := by
  induction lst with
  | nil => cases h
  | cons x xs ih =>
    by_cases hx : x = v
    · exact ⟨[], xs, by simp [hx], by simp⟩
    · have hv : v ∈ xs := by
        rcases List.mem_cons.mp h with h1 | h1
        · exact absurd h1.symm hx
        · exact h1
      obtain ⟨l1, l2, hsplit, hnot⟩ := ih hv
      have hvx : ¬ v = x := fun e => hx e.symm
      exact ⟨x :: l1, l2, by simp [hsplit], by simp [List.mem_cons, hnot, hvx]⟩

theorem pyListRemove_ok_subset {α : Type} [DecidableEq α] :
    ∀ {lst l' : List α} {v : α}, pyListRemove lst v = .ok l' → ∀ x ∈ l', x ∈ lst := by
  intro lst
  induction lst with
  | nil => intro l' v h; cases h
  | cons y ys ih =>
    intro l' v h x hx
    by_cases hy : y = v
    · simp only [pyListRemove, if_pos hy] at h
      cases h
      exact List.mem_cons_of_mem _ hx
    · simp only [pyListRemove, if_neg hy] at h
      cases hys : pyListRemove ys v with
      | error e => rw [hys] at h; cases h
      | ok zs =>
        rw [hys] at h
        simp only [Except.map] at h
        cases h
        rcases List.mem_cons.mp hx with h1 | h1
        · exact List.mem_cons.mpr (Or.inl h1)
        · exact List.mem_cons_of_mem _ (ih hys x h1)

/-! Concrete heaps used as witnesses and counterexamples. -/

/-- A heap where every identity is a Composite with no children. -/
def hAllComp : CHeap :=
  ⟨fun _ => true, fun _ => [], fun _ => none⟩

/-- A heap where identity 0 is a Composite with no children and every
other identity is a Leaf. -/
def hOneComp : CHeap :=
  ⟨fun n => n == 0, fun _ => [], fun _ => none⟩

/-- A heap where every identity is a Composite and identity 0 has the
single child 7. -/
def hChild7 : CHeap :=
  ⟨fun _ => true, fun n => if n = 0 then [7] else [], fun _ => none⟩

/-- A heap where every identity is a Leaf with no children. -/
def hAllLeaf : CHeap :=
  ⟨fun _ => false, fun _ => [], fun _ => none⟩

/-! Helper lemmas about notificar.  The first two justify the fuel
discipline: an atualizar call never grows the subscriber list, so a run
of the loop starting at index i performs at most length - i iterations
and any fuel of at least that many steps computes the same result. -/

theorem removeById_ok_length :
    ∀ {lst l' : List Obs} {v : Nat}, removeById lst v = .ok l' →
      l'.length + 1 = lst.length := by
  intro lst
  induction lst with
  | nil => intro l' v h; cases h
  | cons x xs ih =>
    intro l' v h
    by_cases hx : x.id = v
    · simp only [removeById, if_pos hx] at h
      cases h
      rfl
    · simp only [removeById, if_neg hx] at h
      cases hxs : removeById xs v with
      | error e => rw [hxs] at h; cases h
      | ok zs =>
        rw [hxs] at h
        simp only [Except.map] at h
        cases h
        have := ih hxs
        simp only [List.length_cons]
        omega

theorem atualizar_ok_length_le {o : Obs} {estado : Option Int} {lst lst' : List Obs}
    (h : atualizar o estado lst = .ok lst') : lst'.length ≤ lst.length := by
  rcases o with ⟨i, k⟩
  cases k with
  | a =>
    cases estado with
    | none => simp [atualizar] at h
    | some n => simp only [atualizar] at h; cases h; exact le_refl _
  | b =>
    cases estado with
    | none => simp [atualizar] at h
    | some n => simp only [atualizar] at h; cases h; exact le_refl _
  | remover v =>
    simp only [atualizar] at h
    have := removeById_ok_length h
    omega

/-- One-step unfolding of the loop embedding. -/
theorem notificarAux_succ (estado : Option Int) (fuel : Nat) (lst : List Obs) (i : Nat) :
    notificarAux estado (fuel + 1) lst i =
      if h : i < lst.length then
        match atualizar (lst.get ⟨i, h⟩) estado lst with
        | .error e => ⟨[((lst.get ⟨i, h⟩).id, estado)], lst, some e⟩
        | .ok lst' =>
          ⟨((lst.get ⟨i, h⟩).id, estado) :: (notificarAux estado fuel lst' (i + 1)).visitas,
           (notificarAux estado fuel lst' (i + 1)).restantes,
           (notificarAux estado fuel lst' (i + 1)).erro⟩
      else ⟨[], lst, none⟩ := rfl

theorem notificarAux_fuel_irrelevant (estado : Option Int) :
    ∀ (fuel : Nat) (lst : List Obs) (i : Nat), lst.length - i ≤ fuel →
      notificarAux estado fuel lst i = notificarAux estado (fuel + 1) lst i := by
  intro fuel
  induction fuel with
  | zero =>
    intro lst i hi
    have hni : ¬ i < lst.length := by omega
    simp [notificarAux, notificarAux_succ, hni]
  | succ fuel ih =>
    intro lst i hi
    rw [notificarAux_succ estado fuel, notificarAux_succ estado (fuel + 1)]
    by_cases h : i < lst.length
    · rw [dif_pos h, dif_pos h]
      cases hupd : atualizar (lst.get ⟨i, h⟩) estado lst with
      | error e => rfl
      | ok lst' =>
        have hlen : lst'.length ≤ lst.length := atualizar_ok_length_le hupd
        simp only [ih lst' (i + 1) (by omega)]
    · rw [dif_neg h, dif_neg h]

/-- When the state is an integer and every subscriber is one of the
concrete observer classes of the source, each loop step leaves the list
unchanged and the pass runs from index i to the end of the list. -/
theorem notificarAux_pure (n : Int) (lst : List Obs)
    (hk : ∀ o ∈ lst, o.kind = ObsKind.a ∨ o.kind = ObsKind.b) :
    ∀ (fuel i : Nat), lst.length - i ≤ fuel →
      notificarAux (some n) fuel lst i =
        ⟨(lst.drop i).map (fun o => (o.id, some n)), lst, none⟩ := by
  intro fuel
  induction fuel with
  | zero =>
    intro i hi
    have hle : lst.length ≤ i := by omega
    simp [notificarAux, List.drop_eq_nil_of_le hle, Nat.not_lt.mpr hle]
  | succ fuel ih =>
    intro i hi
    by_cases h : i < lst.length
    · have ho : lst.get ⟨i, h⟩ ∈ lst := lst.get_mem _ _
      have hupd : atualizar (lst.get ⟨i, h⟩) (some n) lst = .ok lst := by
        rcases hk _ ho with hk1 | hk1 <;>
          simp only [List.get_eq_getElem] at hk1 <;> simp [atualizar, hk1]
      rw [notificarAux_succ, dif_pos h, hupd]
      simp only [ih (i + 1) (by omega)]
      rw [List.drop_eq_getElem_cons h, List.map_cons]
      simp [List.get_eq_getElem]
    · have hle : lst.length ≤ i := by omega
      simp [notificarAux, List.drop_eq_nil_of_le hle, h]

/-- Claim C1: with the subject's state set to an integer and the
subscribers drawn from the source's concrete observer classes, one
notificar() call visits each subscriber exactly once, in registration
order, passing the subject, so every visit reads the subject's current
state; the subscriber list is unchanged and no error occurs. -/
theorem notificar_visits_in_order (lst : List Obs) (n : Int)
    (hk : ∀ o ∈ lst, o.kind = ObsKind.a ∨ o.kind = ObsKind.b) :
    notificar lst (some n) = ⟨lst.map (fun o => (o.id, some n)), lst, none⟩ := by
  have h := notificarAux_pure n lst hk lst.length 0 (by omega)
  simpa [notificar] using h

/-- Witness for notificar_visits_in_order at one observer of each
concrete class. -/
theorem notificar_visits_in_order_w :
    notificar [⟨0, .a⟩, ⟨1, .b⟩] (some 2) =
      ⟨[(0, some 2), (1, some 2)], [⟨0, .a⟩, ⟨1, .b⟩], none⟩ := by
  have h := notificar_visits_in_order [⟨0, .a⟩, ⟨1, .b⟩] 2 (by decide)
  simpa using h

/-- Claim C9: a fresh SujeitoConcreto has state None, not an integer;
notificar() in that state makes ObservadorConcretoA fail with TypeError
on the comparison of None with 3, aborting the pass; once the state is
any integer, delivery to both concrete observers succeeds. -/
theorem fresh_estado_none_typeError :
    estadoInicial = none ∧
    atualizar ⟨0, .a⟩ none [] = .error PyError.typeError ∧
    (notificar [⟨0, .a⟩, ⟨1, .b⟩] estadoInicial).erro = some PyError.typeError ∧
    ∀ n : Int, notificar [⟨0, .a⟩, ⟨1, .b⟩] (some n) =
      ⟨[(0, some n), (1, some n)], [⟨0, .a⟩, ⟨1, .b⟩], none⟩ := by
  refine ⟨rfl, rfl, rfl, fun n => ?_⟩
  have h := notificarAux_pure n [⟨0, .a⟩, ⟨1, .b⟩] (by decide) 2 0 (by decide)
  simpa [notificar] using h

/-- Claim C7 evaluated at its failing input: state 5, subscribers the
observer with id 0 (whose atualizar removes the subscriber with id 0,
itself) followed by the ObservadorConcretoB instance with id 1.  The
live-list for-loop visits id 0, the removal shifts id 1 into index 0
while the iterator moves to index 1, and the pass ends: id 1, although
registered at the start of the pass, is never visited. -/
theorem notify_skips_after_mid_removal :
    notificar [⟨0, .remover 0⟩, ⟨1, .b⟩] (some 5) =
      ⟨[(0, some 5)], [⟨1, .b⟩], none⟩ ∧
    (notificar [⟨0, .remover 0⟩, ⟨1, .b⟩] (some 5)).visitas.map Prod.fst = [0] :=
  ⟨rfl, rfl⟩

/-- Claim C5 evaluated at its failing input: _observadores is a single
class-level list shared by every SujeitoConcreto instance, so after
s1.adicionar on a fresh pair of subjects, s2 sees the subscriber as well
and s2.notificar() invokes it (the visit records s2's state None). -/
theorem shared_class_list_cross :
    (adicionarS1 mundoFresh ⟨0, .a⟩).observadores = [⟨0, .a⟩] ∧
    (notificarS2 (adicionarS1 mundoFresh ⟨0, .a⟩)).visitas = [(0, none)] :=
  ⟨rfl, rfl⟩

/-- Claim C4: SujeitoConcreto.remover deletes the first matching entry
of the subscriber list, and on an unregistered observer fails with the
host list's not-found error (ValueError) rather than silently doing
nothing. -/
theorem remover_spec (lst : List Obs) (o : Obs) :
    (o ∉ lst → remover lst o = (lst, some PyError.valueError)) ∧
    (o ∈ lst → ∃ l1 l2, lst = l1 ++ o :: l2 ∧ o ∉ l1 ∧
      remover lst o = (l1 ++ l2, none)) := by
  constructor
  · intro h
    simp [remover, pyListRemove_of_not_mem h]
  · intro h
    obtain ⟨l1, l2, hsplit, hnot⟩ := mem_split_first h
    refine ⟨l1, l2, hsplit, hnot, ?_⟩
    rw [hsplit]
    simp [remover, pyListRemove_append_cons _ _ _ hnot]

/-- Witness for remover_spec at concrete subscriber lists. -/
theorem remover_spec_w :
    remover [⟨0, .a⟩] ⟨1, .b⟩ = ([⟨0, .a⟩], some PyError.valueError) ∧
    ∃ l1 l2, ([⟨0, .a⟩] : List Obs) = l1 ++ ⟨0, .a⟩ :: l2 ∧ (⟨0, .a⟩ : Obs) ∉ l1 ∧
      remover [⟨0, .a⟩] ⟨0, .a⟩ = (l1 ++ l2, none) :=
  ⟨(remover_spec [⟨0, .a⟩] ⟨1, .b⟩).1 (by decide),
   (remover_spec [⟨0, .a⟩] ⟨0, .a⟩).2 (by decide)⟩

/-- Claim C8: both failing removals are atomic.  Composite.remove on an
absent component and SujeitoConcreto.remover on an unregistered observer
raise ValueError from list.remove before any mutation, so the heap
(children and parent references) and the subscriber list are exactly as
before the call. -/
theorem failing_removals_atomic (h : CHeap) (p c : Nat) (lst : List Obs) (o : Obs)
    (hp : h.isComp p = true) (hc : c ∉ h.children p) (ho : o ∉ lst) :
    pyRemove h p c = (h, some PyError.valueError) ∧
    remover lst o = (lst, some PyError.valueError) := by
  constructor
  · simp [pyRemove, hp, pyListRemove_of_not_mem hc]
  · simp [remover, pyListRemove_of_not_mem ho]

/-- Witness for failing_removals_atomic at a concrete heap and list. -/
theorem failing_removals_atomic_w :
    pyRemove hAllComp 0 1 = (hAllComp, some PyError.valueError) ∧
    remover [] ⟨0, .a⟩ = ([], some PyError.valueError) :=
  failing_removals_atomic hAllComp 0 1 [] ⟨0, .a⟩ rfl (by decide) (by decide)

/-- Counterexample to claim C3 as stated: removing the absent component
1 from the childless Composite 0 is not a silent no-op; it raises
ValueError. -/
theorem composite_remove_absent_raises :
    (pyRemove hOneComp 0 1).2 = some PyError.valueError := rfl

/-- Claim C3 amended: for a Branch b and component c, if c is not among
the children then b.remove(c) raises the list-removal not-found error
(ValueError) and leaves the heap unchanged; if c is present, remove
deletes the first matching child and clears its parent reference. -/
theorem composite_remove_amended (h : CHeap) (p c : Nat) (hp : h.isComp p = true) :
    (c ∉ h.children p → pyRemove h p c = (h, some PyError.valueError)) ∧
    (∀ l1 l2, h.children p = l1 ++ c :: l2 → c ∉ l1 →
      pyRemove h p c =
        ({ h with
           children := fun n => if n = p then l1 ++ l2 else h.children n,
           parent := fun n => if n = c then none else h.parent n }, none)) := by
  constructor
  · intro hc
    simp [pyRemove, hp, pyListRemove_of_not_mem hc]
  · intro l1 l2 hsplit hnot
    simp [pyRemove, hp, hsplit, pyListRemove_append_cons _ _ _ hnot]

/-- Witness for composite_remove_amended at a concrete heap, on one
absent and one present child. -/
theorem composite_remove_amended_w :
    pyRemove hChild7 0 1 = (hChild7, some PyError.valueError) ∧
    pyRemove hChild7 0 7 =
      ({ hChild7 with
         children := fun n => if n = 0 then ([] : List Nat) ++ [] else hChild7.children n,
         parent := fun n => if n = 7 then none else hChild7.parent n }, none) :=
  ⟨(composite_remove_amended hChild7 0 1 rfl).1 (by decide),
   (composite_remove_amended hChild7 0 7 rfl).2 [] [] rfl (by decide)⟩

/-- Claim C10: add and remove on a Leaf run the pass bodies inherited
from Component, so they never fail and change nothing: the heap (hence
the Leaf's lack of children and the argument's parent reference) is
untouched, no error is raised, and the Leaf's operation() still returns
the leaf label. -/
theorem leaf_add_remove_noop (h : CHeap) (l c : Nat) (hl : h.isComp l = false) :
    pyAdd h l c = h ∧ pyRemove h l c = (h, none) ∧
    ∀ f, pyOperation h (f + 1) l = some "Folha" := by
  refine ⟨?_, ?_, fun f => ?_⟩ <;> simp [pyAdd, pyRemove, pyOperation, hl]

/-- Witness for leaf_add_remove_noop at a concrete all-leaf heap. -/
theorem leaf_add_remove_noop_w :
    pyAdd hAllLeaf 0 1 = hAllLeaf ∧ pyRemove hAllLeaf 0 1 = (hAllLeaf, none) ∧
    ∀ f, pyOperation hAllLeaf (f + 1) 0 = some "Folha" :=
  leaf_add_remove_noop hAllLeaf 0 1 rfl

/-! Helper lemmas on the tree view. -/

theorem operationList_eq_map : ∀ cs : List PyComponent, operationList cs = cs.map operation := by
  intro cs
  induction cs with
  | nil => rfl
  | cons t ts ih => simp [operationList, ih]

theorem foldl_addT_comp :
    ∀ (ds cs0 : List PyComponent), List.foldl addT (.comp cs0) ds = .comp (cs0 ++ ds) := by
  intro ds
  induction ds with
  | nil => intro cs0; simp
  | cons d ds ih =>
    intro cs0
    have h1 : List.foldl addT (PyComponent.comp cs0) (d :: ds) =
        List.foldl addT (.comp (cs0 ++ [d])) ds := rfl
    rw [h1, ih (cs0 ++ [d]), List.append_assoc]
    rfl

/-- Claim C2: Leaf.operation returns the fixed label, and a Branch's
operation returns each child's operation result in exact insertion
order, joined by the fixed delimiter and wrapped in the branch marker;
in particular after any sequence of add calls on a Branch the children
appear in the order the adds were issued. -/
theorem operation_insertion_order :
    operation .leaf = "Folha" ∧
    (∀ cs : List PyComponent,
      operation (.comp cs) = "Galho(" ++ String.intercalate "+" (cs.map operation) ++ ")") ∧
    (∀ cs0 ds : List PyComponent,
      operation (List.foldl addT (.comp cs0) ds) =
        "Galho(" ++ String.intercalate "+" ((cs0 ++ ds).map operation) ++ ")") := by
  refine ⟨rfl, fun cs => ?_, fun cs0 ds => ?_⟩
  · simp only [operation, operationList_eq_map]
  · rw [foldl_addT_comp]
    simp only [operation, operationList_eq_map]

/-! Acyclicity of the heap child relation: helper lemmas for claim C6.
Adding the edge from p to c can only close a cycle through that new
edge, which requires p to be reachable from c beforehand; removing an
edge can never create one. -/

theorem edge_pyAdd_iff (h : CHeap) (p c : Nat) (hp : h.isComp p = true) (x y : Nat) :
    edgeC (pyAdd h p c) x y ↔ edgeC h x y ∨ (x = p ∧ y = c) := by
  simp only [edgeC, pyAdd, hp, if_true]
  by_cases hx : x = p
  · subst hx
    simp [List.mem_append]
  · simp [hx]

theorem reach_pyAdd_decomp (h : CHeap) (p c : Nat) (hp : h.isComp p = true) :
    ∀ a b, Relation.ReflTransGen (edgeC (pyAdd h p c)) a b →
      Relation.ReflTransGen (edgeC h) a b ∨
      (Relation.ReflTransGen (edgeC (pyAdd h p c)) a p ∧
        Relation.ReflTransGen (edgeC h) c b) := by
  intro a b hab
  induction hab with
  | refl => exact Or.inl .refl
  | tail hab hbc ih =>
    rcases (edge_pyAdd_iff h p c hp _ _).mp hbc with hold | ⟨hm, hb⟩
    · rcases ih with h1 | ⟨h1, h2⟩
      · exact Or.inl (h1.tail hold)
      · exact Or.inr ⟨h1, h2.tail hold⟩
    · subst hm
      subst hb
      exact Or.inr ⟨hab, .refl⟩

theorem transGen_pyAdd_decomp (h : CHeap) (p c : Nat) (hp : h.isComp p = true) :
    ∀ x y, Relation.TransGen (edgeC (pyAdd h p c)) x y →
      Relation.TransGen (edgeC h) x y ∨
      (Relation.ReflTransGen (edgeC (pyAdd h p c)) x p ∧
        Relation.ReflTransGen (edgeC h) c y) := by
  intro x y hxy
  induction hxy with
  | single h1 =>
    rcases (edge_pyAdd_iff h p c hp _ _).mp h1 with hold | ⟨hm, hb⟩
    · exact Or.inl (.single hold)
    · subst hm
      subst hb
      exact Or.inr ⟨.refl, .refl⟩
  | tail hxm hmz ih =>
    rcases (edge_pyAdd_iff h p c hp _ _).mp hmz with hold | ⟨hm, hb⟩
    · rcases ih with h1 | ⟨h1, h2⟩
      · exact Or.inl (h1.tail hold)
      · exact Or.inr ⟨h1, h2.tail hold⟩
    · subst hm
      subst hb
      exact Or.inr ⟨hxm.to_reflTransGen, .refl⟩

theorem acyclic_pyAdd (h : CHeap) (p c : Nat) (hac : AcyclicC h)
    (hreach : ¬ Relation.ReflTransGen (edgeC h) c p) : AcyclicC (pyAdd h p c) := by
  by_cases hp : h.isComp p
  · intro x hx
    rcases transGen_pyAdd_decomp h p c hp x x hx with hold | ⟨hxp, hcx⟩
    · exact hac x hold
    · rcases reach_pyAdd_decomp h p c hp x p hxp with hxp' | ⟨_, hcp⟩
      · exact hreach (hcx.trans hxp')
      · exact hreach hcp
  · have heq : pyAdd h p c = h := by
      simp [pyAdd, hp]
    rwa [heq]

theorem acyclic_pyRemove (h : CHeap) (p c : Nat) (hac : AcyclicC h) :
    AcyclicC (pyRemove h p c).1 := by
  by_cases hp : h.isComp p
  · cases hlr : pyListRemove (h.children p) c with
    | error e =>
      have heq : (pyRemove h p c).1 = h := by simp [pyRemove, hp, hlr]
      rwa [heq]
    | ok ch' =>
      have hch : (pyRemove h p c).1.children =
          fun n => if n = p then ch' else h.children n := by
        simp [pyRemove, hp, hlr]
      have hsub : ∀ x y, edgeC (pyRemove h p c).1 x y → edgeC h x y := by
        intro x y hxy
        simp only [edgeC, hch] at hxy
        by_cases hx : x = p
        · subst hx
          rw [if_pos rfl] at hxy
          exact pyListRemove_ok_subset hlr y hxy
        · rw [if_neg hx] at hxy
          exact hxy
      intro x hx
      exact hac x (Relation.TransGen.mono hsub hx)
  · have heq : (pyRemove h p c).1 = h := by simp [pyRemove, hp]
    rwa [heq]

/-- Counterexample to claim C6 as stated: add does not guard against
cycles.  On the heap whose identity 0 is a childless Composite, the call
corresponding to b.add(b) makes 0 its own child, so the parent/child
relation is no longer acyclic after one add. -/
theorem composite_add_creates_cycle : ¬ AcyclicC (pyAdd hOneComp 0 0) := by
  intro hac
  exact hac 0 (Relation.TransGen.single (by simp [edgeC, pyAdd, hOneComp]))

/-- Claim C6 amended: acyclicity is not preserved by arbitrary add calls
(b.add(b) creates a cycle); it is preserved by add(p, c) whenever p is
not reachable from c through the child relation (in particular whenever
c is a fresh node), and by every remove call; and on tree-shaped
configurations a Branch's operation() is a deterministic function of its
children's operation() results. -/
theorem composite_acyclicity_amended (h : CHeap) (p c : Nat) (hac : AcyclicC h) :
    (¬ Relation.ReflTransGen (edgeC h) c p → AcyclicC (pyAdd h p c)) ∧
    AcyclicC (pyRemove h p c).1 ∧
    (∀ cs cs' : List PyComponent, cs.map operation = cs'.map operation →
      operation (.comp cs) = operation (.comp cs')) := by
  refine ⟨fun hr => acyclic_pyAdd h p c hac hr, acyclic_pyRemove h p c hac,
    fun cs cs' he => ?_⟩
  simp only [operation, operationList_eq_map, he]

/-- In the childless heap every reachability chain is trivial. -/
theorem hAllComp_reach_eq : ∀ a b, Relation.ReflTransGen (edgeC hAllComp) a b → a = b := by
  intro a b hr
  induction hr with
  | refl => rfl
  | tail h1 h2 ih => simp [edgeC, hAllComp] at h2

/-- The childless heap is acyclic. -/
theorem acyclic_hAllComp : AcyclicC hAllComp := by
  intro x hx
  cases hx with
  | single h1 => simp [edgeC, hAllComp] at h1
  | tail h1 h2 => simp [edgeC, hAllComp] at h2

/-- Witness for composite_acyclicity_amended at the childless heap. -/
theorem composite_acyclicity_amended_w :
    AcyclicC (pyAdd hAllComp 0 1) ∧ AcyclicC (pyRemove hAllComp 0 1).1 ∧
    operation (.comp [.leaf]) = operation (.comp [.leaf]) :=
  have h := composite_acyclicity_amended hAllComp 0 1 acyclic_hAllComp
  ⟨h.1 (fun hr => absurd (hAllComp_reach_eq 1 0 hr) (by decide)), h.2.1,
    h.2.2 [.leaf] [.leaf] rfl⟩

end PyDP
